import Mathlib

/-!
Shallow embedding of `flash-cache` (src/flash-cache.js): an in-process
key/value cache with per-entry TTL expiry.  The `flashCache` class keeps a
plain JavaScript object `cacheStore` mapping keys to entry records
`{ value, time, expiryAt }`, and delegates timing to an `Expirer` holding a
registration per `(expiryAt, key)` pair.  The Expirer's source file is not
part of the provided sources; its `add` / `remove` / `dispose` operations and
its firing behaviour are modelled from the spec where noted.

Modelling choices:
* JavaScript timestamps (`Date.now()`) and durations are `Nat`.
* The `cacheStore` is a plain prototype-bearing object (`cacheStore = {}`):
  own properties are an association list, and a property read falls back to
  the prototype chain when there is no own binding.  The truthy
  function-valued names inherited from `Object.prototype` are modelled
  explicitly, and so is the exotic accessor `"__proto__"`: reading it
  returns the object's current prototype, and assigning to it invokes the
  inherited setter, which replaces the prototype link and creates no own
  property.  The state therefore carries the current prototype: `none` for
  the original `Object.prototype`, or `some tgt` once `put("__proto__", …)`
  has installed an entry object as the prototype.  With an entry installed
  as the prototype, its own fields `value` / `time` / `expiryAt` become
  readable as inherited properties of absent keys; the truthiness and the
  `.expiryAt` member of the opaque payload type are supplied by the
  `JSValue` class.
* Falsy-but-defined reads (`0`, `null`, a falsy payload) are collapsed with
  `undefined` into `none`: the code only ever branches on the read's
  truthiness and, when truthy, uses the value itself, so this is
  observationally faithful.
* Synchronously emitted events are collected in a list, in emission order.
* A thrown use-after-dispose error is an explicit `threw` result; the
  operation then returns the state unchanged, which models "nothing further
  was executed".
-/

set_option maxHeartbeats 1000000
set_option linter.unusedSectionVars false

namespace FlashCache

/-- Cache keys are JavaScript strings. -/
abbrev Key := String

/-- A TTL argument as passed in JavaScript: a number, or the literal `false`
(documented way to disable the default expiry).  Other falsy values behave
like these two; `0` is `num 0`. -/
inductive TTLv where
  | num (n : Nat)
  | fls
deriving DecidableEq, Repr

/-- JavaScript truthiness of a TTL value: nonzero numbers are truthy, `false`
is falsy. -/
def TTLv.truthy : TTLv → Bool
  | .num n => n != 0
  | .fls => false

/-- Configuration after the construction-time merge `{...defaultConfig, ...config}`. -/
structure Config where
  defaultCacheExpiryIn : TTLv
  expiryCheckInterval : Nat
deriving DecidableEq, Repr

/-- The `defaultConfig` object of flash-cache.js (lines 24-32). -/
def defaultConfig : Config := ⟨.num 60000, 100⟩

/-- The entry record `{ value, time, expiryAt }` built by `put`
(flash-cache.js line 77).  `expiryAt = none` models `null`. -/
structure Entry (V : Type) where
  value : V
  time : Nat
  expiryAt : Option Nat
deriving DecidableEq, Repr

/-- Truthy function-valued property names inherited from
`Object.prototype`, visible through `cacheStore[key]` when `key` has no own
binding.  The accessor `"__proto__"` is modelled separately (see
`protoKey`). -/
def protoProps : List Key :=
  ["constructor", "hasOwnProperty", "isPrototypeOf", "propertyIsEnumerable",
   "toLocaleString", "toString", "valueOf", "__defineGetter__",
   "__defineSetter__", "__lookupGetter__", "__lookupSetter__"]

/-- Whether `k` names a truthy inherited `Object.prototype` function. -/
def isProtoKey (k : Key) : Bool := protoProps.contains k

/-- The special property name `"__proto__"`: reading it through a plain
object invokes the inherited `Object.prototype.__proto__` getter, returning
the object's current prototype (a truthy object); assigning to it invokes
the inherited setter, which mutates the prototype link and creates no own
property. -/
def protoKey : Key := "__proto__"

/-- JavaScript semantics of the opaque payload type: its truthiness and its
`.expiryAt` member.  Both are needed once `put("__proto__", …)` has
installed an entry object as the store's prototype: the entry's `value`
field is then readable as an inherited property, where the code branches on
its truthiness and destructures its `expiryAt`. -/
class JSValue (V : Type) where
  truthy : V → Bool
  expiryAtProp : V → Option Nat

/-- JavaScript numbers as payloads: truthy iff nonzero, no `expiryAt`
property. -/
instance : JSValue Nat := ⟨fun n => n != 0, fun _ => none⟩

variable {V : Type} [JSValue V]

/-- A truthy JavaScript value that a `cacheStore[key]` read can produce: an
entry record (an own binding, or the entry installed as the prototype), an
inherited `Object.prototype` function, a number leaked from a
prototype-installed entry's `time` / `expiryAt` field, or such an entry's
raw `value` payload. -/
inductive JSVal (V : Type) where
  | entry (e : Entry V)
  | protoVal (k : Key)
  | numVal (n : Nat)
  | rawVal (v : V)
deriving DecidableEq, Repr

/-- Destructuring `const { expiryAt } = target`: entries expose their field,
inherited functions and numbers have no such property, and the `.expiryAt`
member of a raw payload is given by its `JSValue` semantics. -/
def JSVal.expiryAtField : JSVal V → Option Nat
  | .entry e => e.expiryAt
  | .protoVal _ => none
  | .numVal _ => none
  | .rawVal v => JSValue.expiryAtProp v

/-- Events emitted via `mitt`, with their payloads, in the order used by
flash-cache.js: `FC_ADD`, `FC_GET`, `FC_REMOVE`, `FC_EXPIRY`, `FC_CLEAR`. -/
inductive Ev (V : Type) where
  | added (key : Key) (data : Entry V)
  | fetched (key : Key) (data : JSVal V)
  | removedEv (key : Key) (data : JSVal V)
  | expired (key : Key) (data : Entry V)
  | cleared
deriving DecidableEq, Repr

/-- First own-property binding for `k` in the association list. -/
def storeGet : List (Key × Entry V) → Key → Option (Entry V)
  | [], _ => none
  | (k', e) :: rest, k => if k' == k then some e else storeGet rest k

/-- Effect of `delete cacheStore[key]` on the own properties (a no-op for
inherited names, which have no own binding). -/
def storeErase (s : List (Key × Entry V)) (k : Key) : List (Key × Entry V) :=
  s.filter (fun p => p.1 != k)

/-- Effect of the assignment `cacheStore[key] = target` on the own
properties, for every key other than `"__proto__"` (whose assignment
triggers the inherited setter instead; see `putInstall`). -/
def storeSet (s : List (Key × Entry V)) (k : Key) (e : Entry V) :
    List (Key × Entry V) :=
  (k, e) :: storeErase s k

/-- The truthy read of a prototype-installed entry's own fields `value`,
`time`, `expiryAt` by an absent key: the field's value when truthy, `none`
when the field is falsy (`0`, `null`, a falsy payload) or the name is not
one of the three. -/
def entryFieldRead (tgt : Entry V) (k : Key) : Option (JSVal V) :=
  if k == "value" then
    (if JSValue.truthy tgt.value then some (.rawVal tgt.value) else none)
  else if k == "time" then
    (if tgt.time != 0 then some (.numVal tgt.time) else none)
  else if k == "expiryAt" then
    (match tgt.expiryAt with
     | some t => if t != 0 then some (.numVal t) else none
     | none => none)
  else none

/-- The truthy read of `cacheStore[k]` through the prototype chain when `k`
has no own binding.  The chain is `cacheStore → installed entry (if any) →
Object.prototype`; the name `"__proto__"` reads the inherited getter,
returning the current prototype (the installed entry, or
`Object.prototype`). -/
def protoChainRead (pe : Option (Entry V)) (k : Key) : Option (JSVal V) :=
  if k == protoKey then
    some (match pe with
          | some tgt => JSVal.entry tgt
          | none => JSVal.protoVal protoKey)
  else
    match pe with
    | some tgt =>
      (match entryFieldRead tgt k with
       | some v => some v
       | none => if isProtoKey k then some (.protoVal k) else none)
    | none => if isProtoKey k then some (.protoVal k) else none

/-- The property read `this.cacheStore[key]` on the prototype-bearing plain
object: the own entry if present, otherwise the prototype-chain read.  A
`some` result is exactly a truthy read. -/
def propLookup (s : List (Key × Entry V)) (pe : Option (Entry V)) (k : Key) :
    Option (JSVal V) :=
  match storeGet s k with
  | some e => some (.entry e)
  | none => protoChainRead pe k

/-- Modelled from the spec (the Expirer's source is not among the provided
files): `Expirer.add(expiryAt, key, callback)` inserts the
`(expiryAt, key) → callback` registration, overwriting an existing identical
pair rather than duplicating it.  The callback created by `put` is the
`onExpire` closure, represented by the entry it captured. -/
def expAdd (idx : List (Nat × Key × Entry V)) (t : Nat) (k : Key)
    (e : Entry V) : List (Nat × Key × Entry V) :=
  (t, k, e) :: idx.filter (fun r => !(r.1 == t && r.2.1 == k))

/-- Modelled from the spec: `Expirer.remove(expiryAt, key)` deletes the
`(expiryAt, key)` registration if present, is a no-op if absent, and is a
guaranteed no-op when called with a `null`/`undefined` timestamp. -/
def expRemove (idx : List (Nat × Key × Entry V)) (t? : Option Nat) (k : Key) :
    List (Nat × Key × Entry V) :=
  match t? with
  | none => idx
  | some t => idx.filter (fun r => !(r.1 == t && r.2.1 == k))

/-- Full state of one `flashCache` instance: configuration, the `cacheStore`
own properties, the `cacheStore` prototype link (`none` for the original
`Object.prototype`), the Expirer's pending registrations, the Expirer's
disposed flag (periodic loop stopped), and `instanceDisposed`. -/
structure St (V : Type) where
  config : Config
  cacheStore : List (Key × Entry V)
  protoEntry : Option (Entry V)
  expirer : List (Nat × Key × Entry V)
  expirerDisposed : Bool
  instanceDisposed : Bool
deriving DecidableEq, Repr

/-- State right after `new flashCache(config)`. -/
def initSt (V : Type) (cfg : Config) : St V :=
  ⟨cfg, [], none, [], false, false⟩

/-- Result of `remove` (and of `dispose`): a boolean, or the
use-after-dispose throw. -/
inductive BRes where
  | threw
  | ret (b : Bool)
deriving DecidableEq, Repr

/-- Result of `put`: the stored entry, or the use-after-dispose throw. -/
inductive PutRes (V : Type) where
  | threw
  | ok (e : Entry V)
deriving DecidableEq, Repr

/-- Result of `get`: a truthy target, `null`, or the use-after-dispose
throw. -/
inductive GetRes (V : Type) where
  | threw
  | found (v : JSVal V)
  | nullV
deriving DecidableEq, Repr

/-- `remove(key, shouldEmit)` (flash-cache.js lines 122-140): after the
dispose guard, reads `target = cacheStore[key]`; when truthy it deletes the
own property (a no-op for purely inherited reads), cancels the
`(target.expiryAt, key)` Expirer registration, optionally emits `FC_REMOVE`,
and returns `true`; otherwise returns `false`. -/
def remove (st : St V) (key : Key) (shouldEmit : Bool) :
    St V × List (Ev V) × BRes :=
  if st.instanceDisposed then (st, [], .threw)
  else
    match propLookup st.cacheStore st.protoEntry key with
    | none => (st, [], .ret false)
    | some target =>
        ({ st with
            cacheStore := storeErase st.cacheStore key
            expirer := expRemove st.expirer target.expiryAtField key },
         if shouldEmit then [Ev.removedEv key target] else [],
         .ret true)

/-- `expiryAt = expiryIn ? time + expiryIn : null` (flash-cache.js line 76). -/
def computeExpiryAt (expiryIn : TTLv) (now : Nat) : Option Nat :=
  match expiryIn with
  | .num n => if n == 0 then none else some (now + n)
  | .fls => none

/-- First phase of `put` (flash-cache.js lines 68-71): `remove` the existing
binding when the `cacheStore[key]` read is truthy (entry objects always are;
so are inherited prototype reads). -/
def putPhase1 (st : St V) (key : Key) : St V :=
  match propLookup st.cacheStore st.protoEntry key with
  | some _ => (remove st key false).1
  | none => st

/-- Second phase of `put` (flash-cache.js lines 78-92): execute the
assignment `cacheStore[key] = target` — an own binding for every key except
`"__proto__"`, whose assignment invokes the inherited setter and replaces
the prototype link instead — and, when `expiryAt` is set, register the
`onExpire` callback (represented by the entry it captured) with the
Expirer. -/
def putInstall (st1 : St V) (key : Key) (target : Entry V) : St V :=
  let st2 :=
    if key == protoKey then { st1 with protoEntry := some target }
    else { st1 with cacheStore := storeSet st1.cacheStore key target }
  match target.expiryAt with
  | some t => { st2 with expirer := expAdd st2.expirer t key target }
  | none => st2

/-- `put(key, value, expiryIn = config.defaultCacheExpiryIn)` (flash-cache.js
lines 65-96): after the dispose guard, removes an existing truthy binding,
computes `expiryAt`, executes the assignment, registers the `onExpire`
callback with the Expirer when `expiryAt` is set, emits `FC_ADD`, and
returns the entry.  `now` stands for `Date.now()`; `expiryIn? = none` models
an absent third argument, picking up the configured default. -/
def put (st : St V) (key : Key) (value : V) (expiryIn? : Option TTLv)
    (now : Nat) : St V × List (Ev V) × PutRes V :=
  if st.instanceDisposed then (st, [], .threw)
  else
    let target : Entry V :=
      ⟨value, now,
        computeExpiryAt (expiryIn?.getD st.config.defaultCacheExpiryIn) now⟩
    (putInstall (putPhase1 st key) key target,
     [Ev.added key target], .ok target)

/-- `get(key)` (flash-cache.js lines 103-114): after the dispose guard,
returns the truthy `cacheStore[key]` read (emitting `FC_GET`), else
`null`. -/
def get (st : St V) (key : Key) : St V × List (Ev V) × GetRes V :=
  if st.instanceDisposed then (st, [], .threw)
  else
    match propLookup st.cacheStore st.protoEntry key with
    | some target => (st, [Ev.fetched key target], .found target)
    | none => (st, [], .nullV)

/-- The `forEach` of silent `remove` calls in `dispose` (flash-cache.js
line 150): sequential removes over the snapshot of own keys, with the
emitted events concatenated in order. -/
def removeKeys : St V → List Key → St V × List (Ev V)
  | st, [] => (st, [])
  | st, k :: ks =>
      let r := remove st k false
      let rest := removeKeys r.1 ks
      (rest.1, r.2.1 ++ rest.2)

/-- `dispose()` (flash-cache.js lines 147-156): after the dispose guard,
removes every own key silently, emits `FC_CLEAR`, disposes the Expirer
(loop stopped, registrations discarded — modelled from the spec), sets
`instanceDisposed`, and returns `true`. -/
def dispose (st : St V) : St V × List (Ev V) × BRes :=
  if st.instanceDisposed then (st, [], .threw)
  else
    let p := removeKeys st (st.cacheStore.map Prod.fst)
    ({ p.1 with
        expirer := []
        expirerDisposed := true
        instanceDisposed := true },
     p.2 ++ [Ev.cleared], .ret true)

/-- Modelled from the spec: one due registration `(t, key)` firing inside an
Expirer tick.  The Expirer removes the registration from its index and
invokes the callback; the `onExpire` closure from `put` (flash-cache.js
lines 83-89) then emits `FC_EXPIRY` with the captured entry and calls
`remove(key, true)`. -/
def fireOne (st : St V) (t : Nat) (key : Key) : St V × List (Ev V) :=
  match st.expirer.find? (fun r => r.1 == t && r.2.1 == key) with
  | none => (st, [])
  | some r =>
      let st1 := { st with expirer := expRemove st.expirer (some t) key }
      let res := remove st1 key true
      (res.1, Ev.expired key r.2.2 :: res.2.1)

/-- One observable transition of a cache instance: a public API call, or a
due registration firing (only while the Expirer's loop is running). -/
inductive Step : St V → St V → Prop where
  | putS (st : St V) (k : Key) (v : V) (e? : Option TTLv) (now : Nat) :
      Step st (put st k v e? now).1
  | getS (st : St V) (k : Key) : Step st (get st k).1
  | removeS (st : St V) (k : Key) (b : Bool) : Step st (remove st k b).1
  | disposeS (st : St V) : Step st (dispose st).1
  | fireS (st : St V) (t : Nat) (k : Key)
      (hrun : st.expirerDisposed = false) : Step st (fireOne st t k).1

/-- States reachable from a freshly constructed instance. -/
inductive Reachable : St V → Prop where
  | init (cfg : Config) : Reachable (initSt V cfg)
  | step {st st' : St V} : Reachable st → Step st st' → Reachable st'

/-- The Expirer registrations pending for a given key. -/
def keyRegs (idx : List (Nat × Key × Entry V)) (k : Key) :
    List (Nat × Key × Entry V) :=
  idx.filter (fun r => r.2.1 == k)

/-- Store/Expirer correspondence of reachable states.  For every key other
than `"__proto__"`: a key without a live entry, or whose live entry has
`expiryAt = null`, has no pending registration, and a key whose live entry
has `expiryAt = some t` has exactly the one registration `(t, key, entry)`
carrying the callback captured for that entry.  The key `"__proto__"` never
has an own binding (its assignment triggers the inherited setter); a pending
registration for it (at most one) carries the entry currently installed as
the prototype, whose `expiryAt` equals the registered timestamp — but no
store entry corresponds to it. -/
def Consistent (st : St V) : Prop :=
  (∀ k : Key, k ≠ protoKey →
    keyRegs st.expirer k =
      match storeGet st.cacheStore k with
      | none => []
      | some e =>
        match e.expiryAt with
        | none => []
        | some t => [(t, k, e)]) ∧
  storeGet st.cacheStore protoKey = none ∧
  (keyRegs st.expirer protoKey = [] ∨
   ∃ tgt t, st.protoEntry = some tgt ∧ tgt.expiryAt = some t ∧
     keyRegs st.expirer protoKey = [(t, protoKey, tgt)])


/-- Erasing a key makes it unreadable. -/
theorem storeGet_erase_self (s : List (Key × Entry V)) (k : Key) :
    storeGet (storeErase s k) k = none := by
  induction s with
  | nil => rfl
  | cons p rest ih =>
    by_cases h : p.1 = k
    · simpa [storeErase, storeGet, h] using ih
    · simp only [storeErase, List.filter_cons] at *
      simp [h, storeGet, ih]

/-- Erasing one key leaves every other key's binding unchanged. -/
theorem storeGet_erase_other (s : List (Key × Entry V)) (k k' : Key)
    (h : k' ≠ k) : storeGet (storeErase s k') k = storeGet s k := by
  induction s with
  | nil => rfl
  | cons p rest ih =>
    simp only [storeErase, List.filter_cons] at ih ⊢
    by_cases hp : p.1 = k'
    · simp [hp, storeGet, h, Ne.symm h, ih]
    · by_cases hk : p.1 = k <;> simp [hp, hk, storeGet, h, Ne.symm h, ih]

/-- Reading back the key just assigned. -/
theorem storeGet_set_self (s : List (Key × Entry V)) (k : Key) (e : Entry V) :
    storeGet (storeSet s k e) k = some e := by
  simp [storeSet, storeGet]

/-- Assigning one key leaves every other key's binding unchanged. -/
theorem storeGet_set_other (s : List (Key × Entry V)) (k k' : Key)
    (e : Entry V) (h : k' ≠ k) :
    storeGet (storeSet s k' e) k = storeGet s k := by
  simp [storeSet, storeGet, h, storeGet_erase_other s k k' h]

/-- Erasing an absent key is a no-op. -/
theorem storeErase_of_none (s : List (Key × Entry V)) (k : Key)
    (h : storeGet s k = none) : storeErase s k = s := by
  induction s with
  | nil => rfl
  | cons p rest ih =>
    simp only [storeGet] at h
    by_cases hp : p.1 = k
    · simp [hp] at h
    · have h' : storeGet rest k = none := by simpa [hp] using h
      simp only [storeErase, List.filter_cons] at ih ⊢
      rw [if_pos (by simp [hp]), ih h']

/-- Cancelling `(t, k)` drops exactly the timestamp-`t` registrations from
`k`'s pending list. -/
theorem keyRegs_expRemove_self (idx : List (Nat × Key × Entry V)) (t : Nat)
    (k : Key) :
    keyRegs (expRemove idx (some t) k) k =
      (keyRegs idx k).filter (fun r => !(r.1 == t)) := by
  simp only [keyRegs, expRemove, List.filter_filter]
  apply List.filter_congr
  intro a _
  cases h1 : (a.2.1 == k) <;> cases h2 : (a.1 == t) <;> simp [h1, h2]

/-- Cancelling a registration of one key leaves other keys' registrations
unchanged. -/
theorem keyRegs_expRemove_other (idx : List (Nat × Key × Entry V))
    (t? : Option Nat) (k k' : Key) (h : k' ≠ k) :
    keyRegs (expRemove idx t? k') k = keyRegs idx k := by
  match t? with
  | none => rfl
  | some t =>
    simp only [keyRegs, expRemove, List.filter_filter]
    apply List.filter_congr
    intro a _
    by_cases h1 : a.2.1 = k
    · have h2 : (a.2.1 == k') = false := by
        simp only [beq_eq_false_iff_ne, ne_eq, h1]
        exact fun hh => h hh.symm
      simp [h1, h2, Ne.symm h]
    · simp [h1]

/-- Registering `(t, k)` puts that pair first in `k`'s pending list, on top
of the other-timestamp registrations the overwrite kept. -/
theorem keyRegs_expAdd_self (idx : List (Nat × Key × Entry V)) (t : Nat)
    (k : Key) (e : Entry V) :
    keyRegs (expAdd idx t k e) k =
      (t, k, e) :: (keyRegs idx k).filter (fun r => !(r.1 == t)) := by
  simp only [keyRegs, expAdd, List.filter_cons]
  rw [if_pos (by simp)]
  congr 1
  simp only [List.filter_filter]
  apply List.filter_congr
  intro a _
  cases h1 : (a.2.1 == k) <;> cases h2 : (a.1 == t) <;> simp [h1, h2]

/-- Registering for one key leaves other keys' registrations unchanged. -/
theorem keyRegs_expAdd_other (idx : List (Nat × Key × Entry V)) (t : Nat)
    (k k' : Key) (e : Entry V) (h : k' ≠ k) :
    keyRegs (expAdd idx t k' e) k = keyRegs idx k := by
  simp only [keyRegs, expAdd, List.filter_cons]
  rw [if_neg (by simp [h])]
  simp only [List.filter_filter]
  apply List.filter_congr
  intro a _
  by_cases h1 : a.2.1 = k
  · have h2 : (a.2.1 == k') = false := by
      simp only [beq_eq_false_iff_ne, ne_eq, h1]
      exact fun hh => h hh.symm
    simp [h1, h2, Ne.symm h]
  · simp [h1]

/-- Cancelling the same registration twice equals cancelling it once. -/
theorem expRemove_idem (idx : List (Nat × Key × Entry V)) (t : Nat) (k : Key) :
    expRemove (expRemove idx (some t) k) (some t) k =
      expRemove idx (some t) k := by
  simp only [expRemove, List.filter_filter]
  apply List.filter_congr
  intro a _
  cases h1 : (a.1 == t) <;> cases h2 : (a.2.1 == k) <;> simp [h1, h2]

/-- `"__proto__"` is not one of the inherited function-valued names. -/
theorem protoKey_not_protoProp : isProtoKey protoKey = false := by decide

/-- An inherited function-valued name is not `"__proto__"`. -/
theorem ne_protoKey_of_isProtoKey (k : Key) (hp : isProtoKey k = true) :
    k ≠ protoKey := by
  intro hh
  subst hh
  rw [protoKey_not_protoProp] at hp
  exact absurd hp (by simp)

/-- An inherited function-valued name is none of the entry field names, so a
prototype-installed entry leaks nothing under it. -/
theorem entryFieldRead_of_protoProp (tgt : Entry V) (k : Key)
    (hp : isProtoKey k = true) : entryFieldRead tgt k = none := by
  have hmem : k ∈ protoProps := by simpa [isProtoKey] using hp
  have h1 : (k == "value") = false := by
    simp only [beq_eq_false_iff_ne, ne_eq]
    intro hh
    subst hh
    exact absurd hmem (by decide)
  have h2 : (k == "time") = false := by
    simp only [beq_eq_false_iff_ne, ne_eq]
    intro hh
    subst hh
    exact absurd hmem (by decide)
  have h3 : (k == "expiryAt") = false := by
    simp only [beq_eq_false_iff_ne, ne_eq]
    intro hh
    subst hh
    exact absurd hmem (by decide)
  simp [entryFieldRead, h1, h2, h3]

/-- The chain read of an inherited function-valued name, under any
prototype. -/
theorem protoChainRead_protoProp (pe : Option (Entry V)) (k : Key)
    (hp : isProtoKey k = true) :
    protoChainRead pe k = some (.protoVal k) := by
  have hk : (k == protoKey) = false := by
    simp only [beq_eq_false_iff_ne, ne_eq]
    exact ne_protoKey_of_isProtoKey k hp
  cases pe with
  | none => simp [protoChainRead, hk, hp]
  | some tgt =>
    simp [protoChainRead, hk, hp, entryFieldRead_of_protoProp tgt k hp]

/-- The chain read of an ordinary absent name under the original prototype
is `undefined`. -/
theorem protoChainRead_absent (k : Key) (hp : isProtoKey k = false)
    (hk : k ≠ protoKey) :
    protoChainRead (none : Option (Entry V)) k = none := by
  simp [protoChainRead, hp, hk]

/-- The chain read of `"__proto__"`: the inherited getter returns the
current prototype. -/
theorem protoChainRead_protoKey (pe : Option (Entry V)) :
    protoChainRead pe protoKey =
      some (match pe with
            | some tgt => JSVal.entry tgt
            | none => JSVal.protoVal protoKey) := by
  simp [protoChainRead]

/-- A hit on the own properties dominates the prototype chain. -/
theorem propLookup_eq_entry (s : List (Key × Entry V))
    (pe : Option (Entry V)) (k : Key) (e : Entry V)
    (h : storeGet s k = some e) : propLookup s pe k = some (.entry e) := by
  simp [propLookup, h]

/-- A miss on the own properties falls back to an inherited function-valued
name, under any prototype. -/
theorem propLookup_eq_proto (s : List (Key × Entry V))
    (pe : Option (Entry V)) (k : Key)
    (h : storeGet s k = none) (hp : isProtoKey k = true) :
    propLookup s pe k = some (.protoVal k) := by
  simp [propLookup, h, protoChainRead_protoProp pe k hp]

/-- With the original prototype, a miss on an ordinary name reads
`undefined`. -/
theorem propLookup_eq_none (s : List (Key × Entry V)) (k : Key)
    (h : storeGet s k = none) (hp : isProtoKey k = false)
    (hk : k ≠ protoKey) :
    propLookup s (none : Option (Entry V)) k = none := by
  simp [propLookup, h, protoChainRead_absent k hp hk]

/-- Reading `"__proto__"` without an own binding yields the current
prototype. -/
theorem propLookup_protoKey (s : List (Key × Entry V))
    (pe : Option (Entry V)) (h : storeGet s protoKey = none) :
    propLookup s pe protoKey =
      some (match pe with
            | some tgt => JSVal.entry tgt
            | none => JSVal.protoVal protoKey) := by
  simp [propLookup, h, protoChainRead_protoKey]

/-- An `undefined` read means no own binding. -/
theorem storeGet_none_of_propLookup_none (s : List (Key × Entry V))
    (pe : Option (Entry V)) (k : Key)
    (h : propLookup s pe k = none) : storeGet s k = none := by
  unfold propLookup at h
  cases hg : storeGet s k with
  | none => rfl
  | some e => rw [hg] at h; simp at h


/-- Behaviour of `remove` on a disposed instance. -/
theorem remove_disposed (st : St V) (k : Key) (b : Bool)
    (hd : st.instanceDisposed = true) : remove st k b = (st, [], .threw) := by
  simp [remove, hd]

/-- Behaviour of `remove` when the key has a live own entry. -/
theorem remove_found (st : St V) (k : Key) (b : Bool) (e : Entry V)
    (hd : st.instanceDisposed = false)
    (he : storeGet st.cacheStore k = some e) :
    remove st k b =
      ({ st with
          cacheStore := storeErase st.cacheStore k
          expirer := expRemove st.expirer e.expiryAt k },
       if b then [Ev.removedEv k (.entry e)] else [], .ret true) := by
  simp [remove, hd, propLookup_eq_entry _ _ _ _ he, JSVal.expiryAtField]

/-- Behaviour of `remove` on a key absent from the store and the whole
prototype chain (original prototype, not an inherited name, not
`"__proto__"`). -/
theorem remove_absent (st : St V) (k : Key) (b : Bool)
    (hd : st.instanceDisposed = false)
    (he : storeGet st.cacheStore k = none) (hp : isProtoKey k = false)
    (hk : k ≠ protoKey) (hpe : st.protoEntry = none) :
    remove st k b = (st, [], .ret false) := by
  have hl : propLookup st.cacheStore st.protoEntry k = none := by
    rw [hpe]
    exact propLookup_eq_none st.cacheStore k he hp hk
  simp [remove, hd, hl]

/-- Behaviour of `remove` on an inherited `Object.prototype` function name
without an own binding: the truthy read makes it return `true` (and emit
when asked), while the state is untouched. -/
theorem remove_proto (st : St V) (k : Key) (b : Bool)
    (hd : st.instanceDisposed = false)
    (he : storeGet st.cacheStore k = none) (hp : isProtoKey k = true) :
    remove st k b =
      (st, if b then [Ev.removedEv k (.protoVal k)] else [], .ret true) := by
  cases st with
  | mk cfg cs pe ex ed idp =>
    simp only at hd he ⊢
    subst hd
    simp [remove, propLookup_eq_proto _ _ _ he hp, JSVal.expiryAtField,
      expRemove, storeErase_of_none _ _ he]

/-- Behaviour of `remove "__proto__"` while the prototype is the original
`Object.prototype`: the truthy getter read returns `true`, the state is
untouched. -/
theorem remove_protoKey_orig (st : St V) (b : Bool)
    (hd : st.instanceDisposed = false)
    (he : storeGet st.cacheStore protoKey = none)
    (hpe : st.protoEntry = none) :
    remove st protoKey b =
      (st, if b then [Ev.removedEv protoKey (.protoVal protoKey)] else [],
       .ret true) := by
  cases st with
  | mk cfg cs pe ex ed idp =>
    simp only at hd he hpe ⊢
    subst hd
    subst hpe
    simp [remove, propLookup_protoKey _ _ he, JSVal.expiryAtField,
      expRemove, storeErase_of_none _ _ he]

/-- Behaviour of `remove "__proto__"` once an entry is installed as the
prototype: the getter read returns that entry, so the call returns `true`,
cancels the entry's registration, and leaves the store and the prototype
link untouched. -/
theorem remove_protoKey_inst (st : St V) (b : Bool) (tgt : Entry V)
    (hd : st.instanceDisposed = false)
    (he : storeGet st.cacheStore protoKey = none)
    (hpe : st.protoEntry = some tgt) :
    remove st protoKey b =
      ({ st with expirer := expRemove st.expirer tgt.expiryAt protoKey },
       if b then [Ev.removedEv protoKey (.entry tgt)] else [],
       .ret true) := by
  cases st with
  | mk cfg cs pe ex ed idp =>
    simp only at hd he hpe ⊢
    subst hd
    subst hpe
    simp [remove, propLookup_protoKey _ _ he, JSVal.expiryAtField,
      storeErase_of_none _ _ he]

/-- A `get` call never changes the state. -/
theorem get_state (st : St V) (k : Key) : (get st k).1 = st := by
  unfold get
  split
  · rfl
  · split <;> rfl

/-- `remove` touches only the store and the Expirer index. -/
theorem remove_flags (st : St V) (k : Key) (b : Bool) :
    (remove st k b).1.config = st.config ∧
    (remove st k b).1.protoEntry = st.protoEntry ∧
    (remove st k b).1.expirerDisposed = st.expirerDisposed ∧
    (remove st k b).1.instanceDisposed = st.instanceDisposed := by
  unfold remove
  split
  · exact ⟨rfl, rfl, rfl, rfl⟩
  · split <;> exact ⟨rfl, rfl, rfl, rfl⟩

/-- On a live instance the store after `remove k` is exactly the store with
`k` erased (a no-op when `k` had no own binding). -/
theorem remove_cacheStore (st : St V) (k : Key) (b : Bool)
    (hd : st.instanceDisposed = false) :
    (remove st k b).1.cacheStore = storeErase st.cacheStore k := by
  unfold remove
  rw [if_neg (by simp [hd])]
  cases hl : propLookup st.cacheStore st.protoEntry k with
  | none =>
    have hg := storeGet_none_of_propLookup_none _ _ _ hl
    simp [storeErase_of_none _ _ hg]
  | some tv => simp

/-- A silent `remove` emits nothing. -/
theorem remove_silent_events (st : St V) (k : Key) :
    (remove st k false).2.1 = [] := by
  unfold remove
  split
  · rfl
  · split <;> simp


/-- Unfolding `remove` when the read is truthy. -/
theorem remove_state_of_found (st : St V) (k : Key) (b : Bool)
    (target : JSVal V) (hd : st.instanceDisposed = false)
    (hl : propLookup st.cacheStore st.protoEntry k = some target) :
    remove st k b =
      ({ st with
          cacheStore := storeErase st.cacheStore k
          expirer := expRemove st.expirer target.expiryAtField k },
       if b then [Ev.removedEv k target] else [], .ret true) := by
  simp [remove, hd, hl]

/-- Unfolding `remove` when the read is falsy. -/
theorem remove_eq_of_miss (st : St V) (k : Key) (b : Bool)
    (hd : st.instanceDisposed = false)
    (hl : propLookup st.cacheStore st.protoEntry k = none) :
    remove st k b = (st, [], .ret false) := by
  simp [remove, hd, hl]

/-- A freshly constructed instance is consistent. -/
theorem consistent_init (cfg : Config) : Consistent (initSt V cfg) :=
  ⟨fun _ _ => rfl, rfl, Or.inl rfl⟩

/-- An absent ordinary key has no pending registrations, by the
correspondence. -/
theorem keyRegs_nil_of_absent (st : St V) (k : Key) (h : Consistent st)
    (hk : k ≠ protoKey) (hg : storeGet st.cacheStore k = none) :
    keyRegs st.expirer k = [] := by
  have hh := h.1 k hk
  rwa [hg] at hh

/-- After cancelling the prototype registration (if any), `"__proto__"` has
no pending registrations. -/
theorem keyRegs_protoKey_cleared (st : St V) (tgt : Entry V)
    (h : Consistent st) (hpe : st.protoEntry = some tgt) :
    keyRegs (expRemove st.expirer tgt.expiryAt protoKey) protoKey = [] := by
  rcases h.2.2 with hre | ⟨tgt', t, hpe', hexp, hregs⟩
  · cases hex : tgt.expiryAt with
    | none => simpa [expRemove] using hre
    | some t0 =>
      rw [keyRegs_expRemove_self, hre]
      rfl
  · rw [hpe] at hpe'
    injection hpe' with htgt
    subst htgt
    rw [hexp, keyRegs_expRemove_self, hregs]
    simp

/-- With the original prototype, `"__proto__"` has no pending
registrations. -/
theorem keyRegs_protoKey_orig (st : St V) (h : Consistent st)
    (hpe : st.protoEntry = none) : keyRegs st.expirer protoKey = [] := by
  rcases h.2.2 with hre | ⟨tgt', t, hpe', -, -⟩
  · exact hre
  · rw [hpe] at hpe'
    exact absurd hpe' (by simp)

/-- `remove` preserves the store/Expirer correspondence. -/
theorem consistent_remove (st : St V) (k : Key) (b : Bool)
    (h : Consistent st) : Consistent (remove st k b).1 := by
  obtain ⟨hkeys, hpk, hdisj⟩ := h
  cases hd : st.instanceDisposed with
  | true =>
    rw [remove_disposed st k b hd]
    exact ⟨hkeys, hpk, hdisj⟩
  | false =>
    by_cases hknp : k = protoKey
    · subst hknp
      cases hpe : st.protoEntry with
      | none =>
        rw [remove_protoKey_orig st b hd hpk hpe]
        exact ⟨hkeys, hpk, hdisj⟩
      | some tgt =>
        rw [remove_protoKey_inst st b tgt hd hpk hpe]
        refine ⟨?_, hpk, Or.inl ?_⟩
        · intro k' hk'
          rw [keyRegs_expRemove_other st.expirer tgt.expiryAt k' protoKey
            (Ne.symm hk')]
          exact hkeys k' hk'
        · exact keyRegs_protoKey_cleared st tgt ⟨hkeys, hpk, hdisj⟩ hpe
    · cases hl : propLookup st.cacheStore st.protoEntry k with
      | none =>
        rw [remove_eq_of_miss st k b hd hl]
        exact ⟨hkeys, hpk, hdisj⟩
      | some target =>
        rw [remove_state_of_found st k b target hd hl]
        have hpkk : protoKey ≠ k := fun hh => hknp hh.symm
        refine ⟨?_, ?_, ?_⟩
        · intro k' hk'
          by_cases hkk : k' = k
          · subst hkk
            simp only [storeGet_erase_self]
            cases hg : storeGet st.cacheStore k' with
            | some e =>
              have htgt : target = .entry e := by
                rw [propLookup_eq_entry st.cacheStore st.protoEntry k' e hg]
                  at hl
                exact (Option.some_inj.mp hl).symm
              have hh := hkeys k' hknp
              rw [hg] at hh
              rw [htgt]
              cases he : e.expiryAt with
              | none =>
                simp only [he] at hh
                simpa [JSVal.expiryAtField, he, expRemove] using hh
              | some t =>
                simp only [he] at hh
                simp only [JSVal.expiryAtField, he]
                rw [keyRegs_expRemove_self, hh]
                simp
            | none =>
              have hh := hkeys k' hknp
              rw [hg] at hh
              cases ht : target.expiryAtField with
              | none => simpa [expRemove] using hh
              | some t0 =>
                rw [keyRegs_expRemove_self, hh]
                rfl
          · have hh := hkeys k' hk'
            simp only [storeGet_erase_other st.cacheStore k' k (Ne.symm hkk),
              keyRegs_expRemove_other st.expirer target.expiryAtField k' k
                (Ne.symm hkk)]
            exact hh
        · rw [storeGet_erase_other st.cacheStore protoKey k hknp]
          exact hpk
        · rw [keyRegs_expRemove_other st.expirer target.expiryAtField protoKey
            k hknp]
          exact hdisj


/-- Unfolding `putPhase1` when the read is truthy. -/
theorem putPhase1_eq_remove (st : St V) (k : Key) (target : JSVal V)
    (hl : propLookup st.cacheStore st.protoEntry k = some target) :
    putPhase1 st k = (remove st k false).1 := by
  unfold putPhase1
  rw [hl]

/-- Unfolding `putPhase1` when the read is falsy. -/
theorem putPhase1_eq_id (st : St V) (k : Key)
    (hl : propLookup st.cacheStore st.protoEntry k = none) :
    putPhase1 st k = st := by
  unfold putPhase1
  rw [hl]

/-- The removal phase of `put` leaves a consistent state in which the key
has neither an own binding nor a pending registration; other keys, the
prototype link, the flags and the configuration are untouched. -/
theorem putPhase1_spec (st : St V) (k : Key) (h : Consistent st)
    (hd : st.instanceDisposed = false) :
    Consistent (putPhase1 st k) ∧
    storeGet (putPhase1 st k).cacheStore k = none ∧
    keyRegs (putPhase1 st k).expirer k = [] ∧
    (∀ k', k' ≠ k →
      storeGet (putPhase1 st k).cacheStore k' = storeGet st.cacheStore k') ∧
    (∀ k', k' ≠ k →
      keyRegs (putPhase1 st k).expirer k' = keyRegs st.expirer k') ∧
    (putPhase1 st k).protoEntry = st.protoEntry ∧
    (putPhase1 st k).config = st.config ∧
    (putPhase1 st k).expirerDisposed = st.expirerDisposed ∧
    (putPhase1 st k).instanceDisposed = false := by
  by_cases hknp : k = protoKey
  · subst hknp
    have hl := propLookup_protoKey st.cacheStore st.protoEntry h.2.1
    rw [putPhase1_eq_remove st protoKey _ hl]
    cases hpe : st.protoEntry with
    | none =>
      rw [remove_protoKey_orig st false hd h.2.1 hpe]
      exact ⟨h, h.2.1, keyRegs_protoKey_orig st h hpe,
        fun _ _ => rfl, fun _ _ => rfl, hpe, rfl, rfl, hd⟩
    | some tgt =>
      rw [remove_protoKey_inst st false tgt hd h.2.1 hpe]
      have hregs := keyRegs_protoKey_cleared st tgt h hpe
      refine ⟨⟨?_, h.2.1, Or.inl hregs⟩, h.2.1, hregs,
        fun _ _ => rfl, ?_, hpe, rfl, rfl, hd⟩
      · intro k' hk'
        rw [keyRegs_expRemove_other st.expirer tgt.expiryAt k' protoKey
          (Ne.symm hk')]
        exact h.1 k' hk'
      · intro k' hk'
        exact keyRegs_expRemove_other st.expirer tgt.expiryAt k' protoKey
          (Ne.symm hk')
  · cases hl : propLookup st.cacheStore st.protoEntry k with
    | none =>
      rw [putPhase1_eq_id st k hl]
      have hg := storeGet_none_of_propLookup_none _ _ _ hl
      exact ⟨h, hg, keyRegs_nil_of_absent st k h hknp hg,
        fun _ _ => rfl, fun _ _ => rfl, rfl, rfl, rfl, hd⟩
    | some target =>
      rw [putPhase1_eq_remove st k target hl]
      have hcons : Consistent (remove st k false).1 :=
        consistent_remove st k false h
      have hcs := remove_cacheStore st k false hd
      have hflags := remove_flags st k false
      have hexpq : (remove st k false).1.expirer =
          expRemove st.expirer target.expiryAtField k := by
        rw [remove_state_of_found st k false target hd hl]
      have hnone : storeGet (remove st k false).1.cacheStore k = none := by
        rw [hcs]
        exact storeGet_erase_self _ _
      refine ⟨hcons, hnone, keyRegs_nil_of_absent _ k hcons hknp hnone,
        ?_, ?_, hflags.2.1, hflags.1, hflags.2.2.1,
        by rw [hflags.2.2.2]; exact hd⟩
      · intro k' hk'
        rw [hcs]
        exact storeGet_erase_other st.cacheStore k' k (Ne.symm hk')
      · intro k' hk'
        rw [hexpq]
        exact keyRegs_expRemove_other st.expirer target.expiryAtField k' k
          (Ne.symm hk')

/-- The install phase of `put` for an ordinary key: the key now holds
`target` as an own binding, its pending registrations are exactly the one
demanded by `target.expiryAt`, and nothing else changed. -/
theorem putInstall_spec (st1 : St V) (k : Key) (target : Entry V)
    (hk : k ≠ protoKey) (hregs : keyRegs st1.expirer k = []) :
    storeGet (putInstall st1 k target).cacheStore k = some target ∧
    keyRegs (putInstall st1 k target).expirer k =
      (match target.expiryAt with
       | none => []
       | some t => [(t, k, target)]) ∧
    (∀ k', k' ≠ k →
      storeGet (putInstall st1 k target).cacheStore k' =
        storeGet st1.cacheStore k') ∧
    (∀ k', k' ≠ k →
      keyRegs (putInstall st1 k target).expirer k' = keyRegs st1.expirer k') ∧
    (putInstall st1 k target).protoEntry = st1.protoEntry ∧
    (putInstall st1 k target).config = st1.config ∧
    (putInstall st1 k target).expirerDisposed = st1.expirerDisposed ∧
    (putInstall st1 k target).instanceDisposed = st1.instanceDisposed := by
  have hkb : (k == protoKey) = false := by
    simp only [beq_eq_false_iff_ne, ne_eq]
    exact hk
  simp only [putInstall, hkb, Bool.false_eq_true, if_false]
  cases he : target.expiryAt with
  | none =>
    refine ⟨storeGet_set_self _ _ _, hregs, ?_, fun _ _ => rfl,
      rfl, rfl, rfl, rfl⟩
    intro k' hk'
    exact storeGet_set_other st1.cacheStore k' k target (Ne.symm hk')
  | some t =>
    refine ⟨storeGet_set_self _ _ _, ?_, ?_, ?_, rfl, rfl, rfl, rfl⟩
    · rw [keyRegs_expAdd_self, hregs]
      simp
    · intro k' hk'
      exact storeGet_set_other st1.cacheStore k' k target (Ne.symm hk')
    · intro k' hk'
      exact keyRegs_expAdd_other st1.expirer t k' k target (Ne.symm hk')

/-- The install phase of `put` for `"__proto__"`: the inherited setter
replaces the prototype link with `target` and creates no own binding; the
pending registrations for `"__proto__"` become exactly the one demanded by
`target.expiryAt`. -/
theorem putInstall_protoKey_spec (st1 : St V) (target : Entry V)
    (hregs : keyRegs st1.expirer protoKey = []) :
    (putInstall st1 protoKey target).cacheStore = st1.cacheStore ∧
    (putInstall st1 protoKey target).protoEntry = some target ∧
    keyRegs (putInstall st1 protoKey target).expirer protoKey =
      (match target.expiryAt with
       | none => []
       | some t => [(t, protoKey, target)]) ∧
    (∀ k', k' ≠ protoKey →
      keyRegs (putInstall st1 protoKey target).expirer k' =
        keyRegs st1.expirer k') ∧
    (putInstall st1 protoKey target).config = st1.config ∧
    (putInstall st1 protoKey target).expirerDisposed = st1.expirerDisposed ∧
    (putInstall st1 protoKey target).instanceDisposed =
      st1.instanceDisposed := by
  simp only [putInstall, beq_self_eq_true, if_true]
  cases he : target.expiryAt with
  | none => exact ⟨rfl, rfl, hregs, fun _ _ => rfl, rfl, rfl, rfl⟩
  | some t =>
    refine ⟨rfl, rfl, ?_, ?_, rfl, rfl, rfl⟩
    · rw [keyRegs_expAdd_self, hregs]
      simp
    · intro k' hk'
      exact keyRegs_expAdd_other st1.expirer t k' protoKey target
        (Ne.symm hk')


/-- Unfolded result of `put` on a live instance. -/
theorem put_eq (st : St V) (k : Key) (v : V) (e? : Option TTLv) (now : Nat)
    (hd : st.instanceDisposed = false) :
    put st k v e? now =
      (putInstall (putPhase1 st k) k
        ⟨v, now, computeExpiryAt (e?.getD st.config.defaultCacheExpiryIn) now⟩,
       [Ev.added k
         ⟨v, now, computeExpiryAt (e?.getD st.config.defaultCacheExpiryIn) now⟩],
       .ok ⟨v, now,
         computeExpiryAt (e?.getD st.config.defaultCacheExpiryIn) now⟩) := by
  simp only [put, hd]
  rw [if_neg (by simp)]

/-- `put` preserves the store/Expirer correspondence. -/
theorem consistent_put (st : St V) (k : Key) (v : V) (e? : Option TTLv)
    (now : Nat) (h : Consistent st) : Consistent (put st k v e? now).1 := by
  cases hd : st.instanceDisposed with
  | true => simpa [put, hd] using h
  | false =>
    obtain ⟨h1cons, h1none, h1regs, h1other, h1rother, h1pe, -, -, -⟩ :=
      putPhase1_spec st k h hd
    have hput1 : (put st k v e? now).1 =
        putInstall (putPhase1 st k) k
          ⟨v, now,
            computeExpiryAt (e?.getD st.config.defaultCacheExpiryIn) now⟩ := by
      rw [put_eq st k v e? now hd]
    rw [hput1]
    by_cases hknp : k = protoKey
    · subst hknp
      obtain ⟨g1, g2, g3, g4, -, -, -⟩ :=
        putInstall_protoKey_spec (putPhase1 st protoKey)
          ⟨v, now,
            computeExpiryAt (e?.getD st.config.defaultCacheExpiryIn) now⟩
          h1regs
      obtain ⟨c1, c2, c3⟩ := h1cons
      refine ⟨?_, ?_, ?_⟩
      · intro k' hk'
        rw [g4 k' hk', g1]
        exact c1 k' hk'
      · rw [g1]
        exact c2
      · cases hce :
          computeExpiryAt (e?.getD st.config.defaultCacheExpiryIn) now with
        | none =>
          rw [hce] at g3
          exact Or.inl g3
        | some t =>
          rw [hce] at g2 g3
          exact Or.inr ⟨⟨v, now, some t⟩, t, g2, rfl, g3⟩
    · obtain ⟨g1, g2, g3, g4, g5, -, -, -⟩ :=
        putInstall_spec (putPhase1 st k) k
          ⟨v, now,
            computeExpiryAt (e?.getD st.config.defaultCacheExpiryIn) now⟩
          hknp h1regs
      obtain ⟨c1, c2, c3⟩ := h1cons
      refine ⟨?_, ?_, ?_⟩
      · intro k' hk'
        by_cases hkk : k' = k
        · subst hkk
          rw [g1, g2]
        · rw [g3 k' hkk, g4 k' hkk]
          exact c1 k' hk'
      · rw [g3 protoKey (fun hh => hknp hh.symm)]
        exact c2
      · rw [g4 protoKey (fun hh => hknp hh.symm), g5]
        exact c3


/-- The dispose loop is silent, keeps the flags and the prototype link, and
erases exactly the listed keys. -/
theorem removeKeys_spec (ks : List Key) (st : St V)
    (hd : st.instanceDisposed = false) :
    (removeKeys st ks).2 = [] ∧
    (removeKeys st ks).1.config = st.config ∧
    (removeKeys st ks).1.protoEntry = st.protoEntry ∧
    (removeKeys st ks).1.expirerDisposed = st.expirerDisposed ∧
    (removeKeys st ks).1.instanceDisposed = false ∧
    (removeKeys st ks).1.cacheStore = ks.foldl storeErase st.cacheStore := by
  induction ks generalizing st with
  | nil => exact ⟨rfl, rfl, rfl, rfl, hd, rfl⟩
  | cons k ks ih =>
    have hflags := remove_flags st k false
    have hd1 : (remove st k false).1.instanceDisposed = false := by
      rw [hflags.2.2.2]
      exact hd
    obtain ⟨i1, i2, i3, i4, i5, i6⟩ := ih (remove st k false).1 hd1
    refine ⟨?_, ?_, ?_, ?_, i5, ?_⟩
    · show (remove st k false).2.1 ++ (removeKeys (remove st k false).1 ks).2 = []
      rw [remove_silent_events, i1]
      rfl
    · show (removeKeys (remove st k false).1 ks).1.config = st.config
      rw [i2, hflags.1]
    · show (removeKeys (remove st k false).1 ks).1.protoEntry = st.protoEntry
      rw [i3, hflags.2.1]
    · show (removeKeys (remove st k false).1 ks).1.expirerDisposed =
        st.expirerDisposed
      rw [i4, hflags.2.2.1]
    · show (removeKeys (remove st k false).1 ks).1.cacheStore =
        (k :: ks).foldl storeErase st.cacheStore
      rw [i6, List.foldl_cons, remove_cacheStore st k false hd]

/-- Erasing a covering list of keys empties the store. -/
theorem foldl_storeErase_all (ks : List Key) (s : List (Key × Entry V))
    (hsub : ∀ p ∈ s, p.1 ∈ ks) : ks.foldl storeErase s = [] := by
  induction ks generalizing s with
  | nil =>
    cases s with
    | nil => rfl
    | cons p rest => exact absurd (hsub p (by simp)) (by simp)
  | cons k ks ih =>
    rw [List.foldl_cons]
    apply ih
    intro p hp
    have hmem : p ∈ s ∧ ¬p.1 = k := by
      simpa [storeErase, List.mem_filter] using hp
    have hks := hsub p hmem.1
    simp only [List.mem_cons] at hks
    rcases hks with hh | hh
    · exact absurd hh hmem.2
    · exact hh

/-- Full behaviour of `dispose` on a live instance. -/
theorem dispose_spec (st : St V) (hd : st.instanceDisposed = false) :
    dispose st =
      ({ config := st.config, cacheStore := [], protoEntry := st.protoEntry,
         expirer := [], expirerDisposed := true, instanceDisposed := true },
       [Ev.cleared], .ret true) := by
  unfold dispose
  rw [if_neg (by simp [hd])]
  obtain ⟨i1, i2, i3, i4, i5, i6⟩ :=
    removeKeys_spec (st.cacheStore.map Prod.fst) st hd
  have hemp : (removeKeys st (st.cacheStore.map Prod.fst)).1.cacheStore = [] := by
    rw [i6]
    exact foldl_storeErase_all _ _ (fun p hp => List.mem_map_of_mem Prod.fst hp)
  simp [Prod.ext_iff, St.mk.injEq, i1, i2, i3, hemp]

/-- `dispose` preserves the store/Expirer correspondence. -/
theorem consistent_dispose (st : St V) (h : Consistent st) :
    Consistent (dispose st).1 := by
  cases hd : st.instanceDisposed with
  | true => simpa [dispose, hd] using h
  | false =>
    rw [dispose_spec st hd]
    exact ⟨fun _ _ => rfl, rfl, Or.inl rfl⟩

/-- Unfolding `fireOne` when the Expirer finds a due registration. -/
theorem fireOne_eq_of_found (st : St V) (t : Nat) (k : Key)
    (r : Nat × Key × Entry V)
    (hf : st.expirer.find? (fun x => x.1 == t && x.2.1 == k) = some r) :
    fireOne st t k =
      ((remove { st with expirer := expRemove st.expirer (some t) k } k
          true).1,
       Ev.expired k r.2.2 ::
         (remove { st with expirer := expRemove st.expirer (some t) k } k
           true).2.1) := by
  unfold fireOne
  rw [hf]

/-- `fireOne` touches neither flags, nor the prototype link, nor the
configuration. -/
theorem fireOne_flags (st : St V) (t : Nat) (k : Key) :
    (fireOne st t k).1.config = st.config ∧
    (fireOne st t k).1.protoEntry = st.protoEntry ∧
    (fireOne st t k).1.expirerDisposed = st.expirerDisposed ∧
    (fireOne st t k).1.instanceDisposed = st.instanceDisposed := by
  cases hf : st.expirer.find? (fun r => r.1 == t && r.2.1 == k) with
  | none =>
    unfold fireOne
    rw [hf]
    exact ⟨rfl, rfl, rfl, rfl⟩
  | some r =>
    rw [fireOne_eq_of_found st t k r hf]
    exact remove_flags ({ st with expirer := expRemove st.expirer (some t) k } :
      St V) k true

/-- Firing a pending registration of an ordinary key on a live, consistent
instance: the registration agrees with the live entry, the callback emits
`expired` with the captured entry and then the notified `removed`, and both
the binding and the registration are gone afterwards. -/
theorem fireOne_spec (st : St V) (t : Nat) (k : Key) (e : Entry V)
    (h : Consistent st) (hd : st.instanceDisposed = false)
    (hk : k ≠ protoKey) (hmem : (t, k, e) ∈ st.expirer) :
    storeGet st.cacheStore k = some e ∧ e.expiryAt = some t ∧
    fireOne st t k =
      ({ st with
          cacheStore := storeErase st.cacheStore k
          expirer := expRemove st.expirer (some t) k },
       [Ev.expired k e, Ev.removedEv k (.entry e)]) := by
  have hkr : (t, k, e) ∈ keyRegs st.expirer k :=
    List.mem_filter.mpr ⟨hmem, by simp⟩
  have hh := h.1 k hk
  cases hg : storeGet st.cacheStore k with
  | none =>
    rw [hg] at hh
    rw [hh] at hkr
    exact absurd hkr (by simp)
  | some e0 =>
    rw [hg] at hh
    cases he0 : e0.expiryAt with
    | none =>
      simp only [he0] at hh
      rw [hh] at hkr
      exact absurd hkr (by simp)
    | some t0 =>
      simp only [he0] at hh
      rw [hh] at hkr
      simp only [List.mem_singleton, Prod.mk.injEq] at hkr
      obtain ⟨ht, -, hee⟩ := hkr
      subst ht
      subst hee
      refine ⟨rfl, he0, ?_⟩
      cases hf : st.expirer.find? (fun r => r.1 == t && r.2.1 == k) with
      | none =>
        exfalso
        have := List.find?_eq_none.mp hf (t, k, e) hmem
        simp at this
      | some r =>
        have hpred := List.find?_some hf
        have hrmem := List.mem_of_find?_eq_some hf
        simp only [Bool.and_eq_true, beq_iff_eq] at hpred
        have hrk : r ∈ keyRegs st.expirer k :=
          List.mem_filter.mpr ⟨hrmem, by simp [hpred.2]⟩
        rw [hh] at hrk
        simp only [List.mem_singleton] at hrk
        subst hrk
        rw [fireOne_eq_of_found st t k (t, k, e) hf]
        have hstep := remove_found
          ({ st with expirer := expRemove st.expirer (some t) k } : St V)
          k true e hd hg
        rw [hstep]
        simp [he0, expRemove_idem]

/-- `fireOne` preserves the store/Expirer correspondence on a live
instance. -/
theorem consistent_fire (st : St V) (t : Nat) (k : Key) (h : Consistent st)
    (hd : st.instanceDisposed = false) : Consistent (fireOne st t k).1 := by
  cases hf : st.expirer.find? (fun r => r.1 == t && r.2.1 == k) with
  | none =>
    unfold fireOne
    rw [hf]
    exact h
  | some r =>
    obtain ⟨hrt, hrk⟩ :=
      (by simpa using List.find?_some hf : r.1 = t ∧ r.2.1 = k)
    have hr : r = (t, k, r.2.2) := by
      obtain ⟨r1, r21, r22⟩ := r
      simp only at hrt hrk
      rw [hrt, hrk]
    have hmem : (t, k, r.2.2) ∈ st.expirer := hr ▸ List.mem_of_find?_eq_some hf
    by_cases hknp : k = protoKey
    · subst hknp
      obtain ⟨hkeys, hpk, hdisj⟩ := h
      have hkr : (t, protoKey, r.2.2) ∈ keyRegs st.expirer protoKey :=
        List.mem_filter.mpr ⟨hmem, by simp⟩
      rcases hdisj with hre | ⟨tgt, t0, hpe, hexp, hregs⟩
      · rw [hre] at hkr
        exact absurd hkr (by simp)
      · rw [hregs] at hkr
        simp only [List.mem_singleton, Prod.mk.injEq] at hkr
        obtain ⟨ht0, -, htgt⟩ := hkr
        subst ht0
        rw [fireOne_eq_of_found st t protoKey r hf]
        have hstep := remove_protoKey_inst
          ({ st with expirer := expRemove st.expirer (some t) protoKey } : St V)
          true tgt hd hpk hpe
        rw [hstep]
        refine ⟨?_, hpk, Or.inl ?_⟩
        · intro k' hk'
          rw [keyRegs_expRemove_other _ tgt.expiryAt k' protoKey (Ne.symm hk'),
            keyRegs_expRemove_other st.expirer (some t) k' protoKey
              (Ne.symm hk')]
          exact hkeys k' hk'
        · rw [hexp, keyRegs_expRemove_self, keyRegs_expRemove_self, hregs]
          simp
    · obtain ⟨hg, he, hfe⟩ := fireOne_spec st t k r.2.2 h hd hknp hmem
      rw [hfe]
      obtain ⟨hkeys, hpk, hdisj⟩ := h
      refine ⟨?_, ?_, ?_⟩
      · intro k' hk'
        by_cases hkk : k' = k
        · subst hkk
          simp only [storeGet_erase_self]
          rw [keyRegs_expRemove_self]
          have hh := hkeys k' hknp
          rw [hg] at hh
          simp only [he] at hh
          rw [hh]
          simp
        · simp only [storeGet_erase_other st.cacheStore k' k (Ne.symm hkk),
            keyRegs_expRemove_other st.expirer (some t) k' k (Ne.symm hkk)]
          exact hkeys k' hk'
      · rw [storeGet_erase_other st.cacheStore protoKey k hknp]
        exact hpk
      · rw [keyRegs_expRemove_other st.expirer (some t) protoKey k hknp]
        exact hdisj


/-- The removal phase of `put` touches neither flags nor configuration. -/
theorem putPhase1_flags (st : St V) (k : Key) :
    (putPhase1 st k).config = st.config ∧
    (putPhase1 st k).expirerDisposed = st.expirerDisposed ∧
    (putPhase1 st k).instanceDisposed = st.instanceDisposed := by
  unfold putPhase1
  cases propLookup st.cacheStore st.protoEntry k
  · exact ⟨rfl, rfl, rfl⟩
  · have hflags := remove_flags st k false
    exact ⟨hflags.1, hflags.2.2.1, hflags.2.2.2⟩

/-- The install phase of `put` touches neither flags nor configuration. -/
theorem putInstall_flags (st1 : St V) (k : Key) (target : Entry V) :
    (putInstall st1 k target).config = st1.config ∧
    (putInstall st1 k target).expirerDisposed = st1.expirerDisposed ∧
    (putInstall st1 k target).instanceDisposed = st1.instanceDisposed := by
  unfold putInstall
  cases k == protoKey <;> cases target.expiryAt <;> exact ⟨rfl, rfl, rfl⟩

/-- `put` touches neither flags nor configuration. -/
theorem put_flags (st : St V) (k : Key) (v : V) (e? : Option TTLv)
    (now : Nat) :
    (put st k v e? now).1.config = st.config ∧
    (put st k v e? now).1.expirerDisposed = st.expirerDisposed ∧
    (put st k v e? now).1.instanceDisposed = st.instanceDisposed := by
  cases hd : st.instanceDisposed with
  | true => simp [put, hd]
  | false =>
    have h1 := putPhase1_flags st k
    have h2 := putInstall_flags (putPhase1 st k) k
      ⟨v, now, computeExpiryAt (e?.getD st.config.defaultCacheExpiryIn) now⟩
    have hput : (put st k v e? now).1 =
        putInstall (putPhase1 st k) k
          ⟨v, now,
            computeExpiryAt (e?.getD st.config.defaultCacheExpiryIn) now⟩ := by
      rw [put_eq st k v e? now hd]
    rw [hput]
    refine ⟨by rw [h2.1, h1.1], by rw [h2.2.1, h1.2.1], ?_⟩
    rw [h2.2.2, h1.2.2]
    exact hd

/-- Every reachable state keeps the Expirer's disposed flag in sync with the
instance flag and satisfies the store/Expirer correspondence. -/
theorem inv_reachable (st : St V) (h : Reachable st) :
    st.expirerDisposed = st.instanceDisposed ∧ Consistent st := by
  induction h with
  | init cfg => exact ⟨rfl, consistent_init cfg⟩
  | @step s s' hr hs ih =>
    obtain ⟨ihf, ihc⟩ := ih
    cases hs with
    | putS k v e? now =>
      have hfl := put_flags s k v e? now
      exact ⟨by rw [hfl.2.1, hfl.2.2, ihf], consistent_put s k v e? now ihc⟩
    | getS k =>
      rw [get_state s k]
      exact ⟨ihf, ihc⟩
    | removeS k b =>
      have hfl := remove_flags s k b
      exact ⟨by rw [hfl.2.2.1, hfl.2.2.2, ihf], consistent_remove s k b ihc⟩
    | disposeS =>
      refine ⟨?_, consistent_dispose s ihc⟩
      cases hd : s.instanceDisposed with
      | true => simp [dispose, hd, ihf]
      | false => rw [dispose_spec s hd]
    | fireS t k hrun =>
      have hfl := fireOne_flags s t k
      have hd : s.instanceDisposed = false := by rw [← ihf]; exact hrun
      exact ⟨by rw [hfl.2.2.1, hfl.2.2.2, ihf], consistent_fire s t k ihc hd⟩

/-- Every reachable state satisfies the store/Expirer correspondence. -/
theorem consistent_reachable (st : St V) (h : Reachable st) : Consistent st :=
  (inv_reachable st h).2

/-- The install phase writes an own binding for every ordinary key. -/
theorem putInstall_cacheStore_ne (st1 : St V) (k : Key) (target : Entry V)
    (hk : k ≠ protoKey) :
    (putInstall st1 k target).cacheStore = storeSet st1.cacheStore k target := by
  have hkb : (k == protoKey) = false := by
    simp only [beq_eq_false_iff_ne, ne_eq]
    exact hk
  simp only [putInstall, hkb, Bool.false_eq_true, if_false]
  cases target.expiryAt <;> rfl

/-- A falsy TTL computes a `null` expiry. -/
theorem computeExpiryAt_falsy (tv : TTLv) (now : Nat)
    (h : tv.truthy = false) : computeExpiryAt tv now = none := by
  cases tv with
  | num n =>
    simp only [TTLv.truthy, bne_eq_false_iff_eq] at h
    simp [computeExpiryAt, h]
  | fls => rfl

/-- After `put` of an ordinary key, the key reads back the installed
entry. -/
theorem put_cacheStore_self (st : St V) (k : Key) (v : V) (e? : Option TTLv)
    (now : Nat) (hd : st.instanceDisposed = false) (hk : k ≠ protoKey) :
    storeGet (put st k v e? now).1.cacheStore k =
      some ⟨v, now,
        computeExpiryAt (e?.getD st.config.defaultCacheExpiryIn) now⟩ := by
  rw [put_eq st k v e? now hd]
  show storeGet (putInstall (putPhase1 st k) k _).cacheStore k = _
  rw [putInstall_cacheStore_ne _ _ _ hk]
  exact storeGet_set_self _ _ _

/-- After `put` of an ordinary key, the key's pending registrations are
exactly the one demanded by the computed expiry. -/
theorem put_keyRegs_self (st : St V) (k : Key) (v : V) (e? : Option TTLv)
    (now : Nat) (h : Consistent st) (hd : st.instanceDisposed = false)
    (hk : k ≠ protoKey) :
    keyRegs (put st k v e? now).1.expirer k =
      (match computeExpiryAt (e?.getD st.config.defaultCacheExpiryIn) now with
       | none => []
       | some t => [(t, k, ⟨v, now, some t⟩)]) := by
  have h1 := (putPhase1_spec st k h hd).2.2.1
  have h2 := (putInstall_spec (putPhase1 st k) k
    ⟨v, now, computeExpiryAt (e?.getD st.config.defaultCacheExpiryIn) now⟩
    hk h1).2.1
  rw [put_eq st k v e? now hd]
  cases hc : computeExpiryAt (e?.getD st.config.defaultCacheExpiryIn) now with
  | none =>
    rw [hc] at h2
    exact h2
  | some t =>
    rw [hc] at h2
    exact h2

/-- Firing any registration never evicts an entry without expiry (nor any
entry other than the fired key). -/
theorem fireOne_preserves_null (st : St V) (t : Nat) (k k' : Key)
    (e : Entry V) (h : Consistent st) (hg : storeGet st.cacheStore k = some e)
    (hn : e.expiryAt = none) :
    storeGet (fireOne st t k').1.cacheStore k = some e := by
  have hk : k ≠ protoKey := by
    intro hh
    rw [hh, h.2.1] at hg
    exact absurd hg (by simp)
  cases hf : st.expirer.find? (fun r => r.1 == t && r.2.1 == k') with
  | none =>
    unfold fireOne
    rw [hf]
    exact hg
  | some r =>
    obtain ⟨hrt, hrk⟩ :=
      (by simpa using List.find?_some hf : r.1 = t ∧ r.2.1 = k')
    have hkk : k' ≠ k := by
      intro hkeq
      subst hkeq
      have hregs : keyRegs st.expirer k' = [] := by
        have hh := h.1 k' hk
        rw [hg] at hh
        simpa [hn] using hh
      have hmem : r ∈ keyRegs st.expirer k' :=
        List.mem_filter.mpr ⟨List.mem_of_find?_eq_some hf, by simp [hrk]⟩
      rw [hregs] at hmem
      simp at hmem
    have key : ∀ s2 : St V, s2.cacheStore = st.cacheStore →
        storeGet (remove s2 k' true).1.cacheStore k = some e := by
      intro s2 hcs
      cases hd2 : s2.instanceDisposed with
      | true =>
        rw [remove_disposed s2 k' true hd2, hcs]
        exact hg
      | false =>
        rw [remove_cacheStore s2 k' true hd2, hcs,
          storeGet_erase_other st.cacheStore k k' hkk]
        exact hg
    rw [fireOne_eq_of_found st t k' r hf]
    exact key _ rfl


/-- C1 (amended): in every reachable state, for every key other than
`"__proto__"`: an entry stored with `expiryAt = null` has no pending
registration in the Expirer, an entry stored with `expiryAt` set has exactly
one pending registration `(expiryAt, key)` carrying the callback captured
for it, and conversely every registration belongs to the matching live
entry.  The key `"__proto__"` never has a store entry — its assignment
triggers the inherited `Object.prototype.__proto__` setter — and a pending
registration for it (at most one) corresponds instead to the entry installed
as the store's prototype, whose `expiryAt` equals the registered timestamp.
`Reachable` is closed under `put`, `get`, `remove`, `dispose` and the
eviction callback (`fireOne`), so every operation preserves this
correspondence within the same logical step. -/
theorem claim_C1_store_expirer_invariant (st : St V) (h : Reachable st) :
    Consistent st :=
  consistent_reachable st h

/-- C1 counterexample to the claim as stated: `put("__proto__", 1, 50)` on a
fresh cache reaches a state holding a pending Expirer registration for
`"__proto__"` with no corresponding store entry — the assignment on line 78
triggered the inherited `Object.prototype.__proto__` setter instead of
creating a store slot, while line 91 still registered the expiry. -/
theorem claim_C1_store_expirer_invariant_counterexample :
    Reachable ((put (initSt Nat defaultConfig) "__proto__" 1
      (some (.num 50)) 0).1) ∧
    (50, "__proto__", (⟨1, 0, some 50⟩ : Entry Nat)) ∈
      (put (initSt Nat defaultConfig) "__proto__" 1
        (some (.num 50)) 0).1.expirer ∧
    storeGet (put (initSt Nat defaultConfig) "__proto__" 1
        (some (.num 50)) 0).1.cacheStore "__proto__" = none :=
  ⟨Reachable.step (Reachable.init defaultConfig)
    (Step.putS (initSt Nat defaultConfig) "__proto__" 1 (some (.num 50)) 0),
   by decide, by decide⟩

/-- C1 witness: the amended correspondence at a concrete reachable state. -/
theorem claim_C1_store_expirer_invariant_witness :
    Consistent ((put (initSt Nat defaultConfig) "a" 1 (some (.num 50)) 0).1) :=
  claim_C1_store_expirer_invariant _
    (Reachable.step (Reachable.init defaultConfig)
      (Step.putS (initSt Nat defaultConfig) "a" 1 (some (.num 50)) 0))

/-- C2: on a live reachable instance, re-`put` of a key that has a live
entry fully removes it first: afterwards the key's pending registrations are
exactly the one for the new expiry (none when falsy); hence when the old
deadline differs from the new one, no registration at the old deadline
remains for the key, and the key does not expire at the old deadline —
firing `(tOld, k)` leaves the new entry in place. -/
theorem claim_C2_reput_cancels (st : St V) (k : Key) (v : V) (e? : Option TTLv)
    (now : Nat) (eOld : Entry V) (h : Reachable st)
    (hd : st.instanceDisposed = false)
    (hg : storeGet st.cacheStore k = some eOld) :
    keyRegs (put st k v e? now).1.expirer k =
      (match computeExpiryAt (e?.getD st.config.defaultCacheExpiryIn) now with
       | none => []
       | some t => [(t, k, ⟨v, now, some t⟩)]) ∧
    (∀ tOld : Nat, eOld.expiryAt = some tOld →
      computeExpiryAt (e?.getD st.config.defaultCacheExpiryIn) now ≠ some tOld →
      (∀ e' : Entry V, (tOld, k, e') ∉ (put st k v e? now).1.expirer) ∧
      storeGet (fireOne (put st k v e? now).1 tOld k).1.cacheStore k =
        some ⟨v, now,
          computeExpiryAt (e?.getD st.config.defaultCacheExpiryIn) now⟩) := by
  have hc := consistent_reachable st h
  have hk : k ≠ protoKey := by
    intro hh
    rw [hh, hc.2.1] at hg
    exact absurd hg (by simp)
  have hregs := put_keyRegs_self st k v e? now hc hd hk
  refine ⟨hregs, fun tOld hto hne => ?_⟩
  have hnotin : ∀ e' : Entry V,
      (tOld, k, e') ∉ (put st k v e? now).1.expirer := by
    intro e' hmem
    have hmem2 : (tOld, k, e') ∈ keyRegs (put st k v e? now).1.expirer k :=
      List.mem_filter.mpr ⟨hmem, by simp⟩
    rw [hregs] at hmem2
    cases hcc : computeExpiryAt (e?.getD st.config.defaultCacheExpiryIn) now with
    | none =>
      rw [hcc] at hmem2
      simp at hmem2
    | some t =>
      rw [hcc] at hmem2
      simp only [List.mem_singleton, Prod.mk.injEq] at hmem2
      exact hne (by rw [hcc, hmem2.1])
  have hfind : (put st k v e? now).1.expirer.find?
      (fun r => r.1 == tOld && r.2.1 == k) = none := by
    rw [List.find?_eq_none]
    intro a ha hpred
    simp only [Bool.and_eq_true, beq_iff_eq] at hpred
    have hmem2 : a ∈ keyRegs (put st k v e? now).1.expirer k :=
      List.mem_filter.mpr ⟨ha, by simp [hpred.2]⟩
    rw [hregs] at hmem2
    cases hcc : computeExpiryAt (e?.getD st.config.defaultCacheExpiryIn) now with
    | none =>
      rw [hcc] at hmem2
      simp at hmem2
    | some t =>
      rw [hcc] at hmem2
      simp only [List.mem_singleton] at hmem2
      rw [hmem2] at hpred
      apply hne
      rw [hcc, ← hpred.1]
  have hfire : fireOne (put st k v e? now).1 tOld k =
      ((put st k v e? now).1, []) := by
    unfold fireOne
    rw [hfind]
  refine ⟨hnotin, ?_⟩
  rw [hfire]
  exact put_cacheStore_self st k v e? now hd hk

/-- C2 witness: putting `"k"` with TTL 50 at time 0, then re-putting it with
TTL 10000 at time 10, leaves no registration at the original deadline 50,
and firing `(50, "k")` does not evict the new entry. -/
theorem claim_C2_reput_cancels_witness :
    (∀ e' : Entry Nat, (50, "k", e') ∉
      (put (put (initSt Nat defaultConfig) "k" 1 (some (.num 50)) 0).1
        "k" 2 (some (.num 10000)) 10).1.expirer) ∧
    storeGet (fireOne (put (put (initSt Nat defaultConfig) "k" 1
        (some (.num 50)) 0).1 "k" 2 (some (.num 10000)) 10).1
        50 "k").1.cacheStore "k" =
      some ⟨2, 10, computeExpiryAt ((some (TTLv.num 10000)).getD
        (put (initSt Nat defaultConfig) "k" 1
          (some (.num 50)) 0).1.config.defaultCacheExpiryIn) 10⟩ :=
  (claim_C2_reput_cancels
    (put (initSt Nat defaultConfig) "k" 1 (some (.num 50)) 0).1
    "k" 2 (some (.num 10000)) 10 ⟨1, 0, some 50⟩
    (Reachable.step (Reachable.init defaultConfig)
      (Step.putS (initSt Nat defaultConfig) "k" 1 (some (.num 50)) 0))
    (by decide) (by decide)).2 50 (by decide) (by decide)

/-- C3 (amended): on a live reachable instance, for every key other than
`"__proto__"`, `put` with a falsy resolved TTL (`0`, `false`, or absent with
a falsy configured default) stores an entry with `expiryAt = null` and
registers nothing with the Expirer, and firing any registration never evicts
that entry — it is deleted only by an explicit `remove` (or `dispose`); with
a truthy numeric TTL the stored entry has `expiryAt = now + ttl`.  (For
`"__proto__"` the assignment triggers the inherited prototype setter and no
store entry is created; see the counterexample.) -/
theorem claim_C3_falsy_ttl (st : St V) (k : Key) (v : V) (e? : Option TTLv)
    (now : Nat) (h : Reachable st) (hd : st.instanceDisposed = false)
    (hk : k ≠ protoKey) :
    ((e?.getD st.config.defaultCacheExpiryIn).truthy = false →
      storeGet (put st k v e? now).1.cacheStore k = some ⟨v, now, none⟩ ∧
      keyRegs (put st k v e? now).1.expirer k = [] ∧
      ∀ (t : Nat) (k' : Key),
        storeGet (fireOne (put st k v e? now).1 t k').1.cacheStore k =
          some ⟨v, now, none⟩) ∧
    (∀ n : Nat, e?.getD st.config.defaultCacheExpiryIn = .num n → n ≠ 0 →
      storeGet (put st k v e? now).1.cacheStore k =
        some ⟨v, now, some (now + n)⟩) := by
  have hc := consistent_reachable st h
  constructor
  · intro hfal
    have hz := computeExpiryAt_falsy _ now hfal
    have hself := put_cacheStore_self st k v e? now hd hk
    rw [hz] at hself
    have hregs := put_keyRegs_self st k v e? now hc hd hk
    rw [hz] at hregs
    refine ⟨hself, hregs, fun t k' => ?_⟩
    have hcput : Consistent (put st k v e? now).1 :=
      consistent_put st k v e? now hc
    exact fireOne_preserves_null _ t k k' _ hcput hself rfl
  · intro n hn hnz
    have hself := put_cacheStore_self st k v e? now hd hk
    rw [hn] at hself
    have hcn : computeExpiryAt (TTLv.num n) now = some (now + n) := by
      simp [computeExpiryAt, hnz]
    rw [hcn] at hself
    exact hself

/-- C3 counterexample to the claim as stated: `put("__proto__", 1, 0)` on a
fresh cache returns the created entry but stores nothing — the assignment
triggered the inherited prototype setter, so the store has no entry for
`"__proto__"`. -/
theorem claim_C3_falsy_ttl_counterexample :
    (put (initSt Nat defaultConfig) "__proto__" 1 (some (.num 0)) 0).2.2 =
      PutRes.ok ⟨1, 0, none⟩ ∧
    storeGet (put (initSt Nat defaultConfig) "__proto__" 1
        (some (.num 0)) 0).1.cacheStore "__proto__" = none := by
  decide

/-- C3 witness: TTL `0` stores a never-expiring entry with no registration,
and TTL `50` stores `expiryAt = now + 50`. -/
theorem claim_C3_falsy_ttl_witness :
    (storeGet (put (initSt Nat defaultConfig) "a" 1
        (some (.num 0)) 7).1.cacheStore "a" = some ⟨1, 7, none⟩ ∧
      keyRegs (put (initSt Nat defaultConfig) "a" 1
        (some (.num 0)) 7).1.expirer "a" = []) ∧
    storeGet (put (initSt Nat defaultConfig) "b" 2
        (some (.num 50)) 7).1.cacheStore "b" = some ⟨2, 7, some 57⟩ :=
  ⟨(fun hh => ⟨hh.1, hh.2.1⟩)
    ((claim_C3_falsy_ttl (initSt Nat defaultConfig) "a" 1 (some (.num 0)) 7
      (Reachable.init defaultConfig) (by decide) (by decide)).1 (by decide)),
   (claim_C3_falsy_ttl (initSt Nat defaultConfig) "b" 2 (some (.num 50)) 7
      (Reachable.init defaultConfig) (by decide) (by decide)).2 50
      (by decide) (by decide)⟩


/-- C4 (amended): when a pending registration `(t, k)` for a key other than
`"__proto__"` fires on a live reachable instance, the callback raises
exactly one `expired` event whose payload carries the entry captured at
`put` time — which equals the live entry — and then removes `k` with
notification, so the events are, in order, `expired` then `removed`;
afterwards the key's own binding is gone, and `get k` returns the not-found
sentinel provided `k` does not name an inherited `Object.prototype` property
and the store's prototype has not been replaced by a `put("__proto__", …)`
(for inherited names the truthy inherited read is returned instead — see
the counterexample). -/
theorem claim_C4_eviction_events (st : St V) (t : Nat) (k : Key) (e : Entry V)
    (h : Reachable st) (hd : st.instanceDisposed = false)
    (hk : k ≠ protoKey) (hmem : (t, k, e) ∈ st.expirer) :
    storeGet st.cacheStore k = some e ∧
    (fireOne st t k).2 = [Ev.expired k e, Ev.removedEv k (.entry e)] ∧
    storeGet (fireOne st t k).1.cacheStore k = none ∧
    (isProtoKey k = false → st.protoEntry = none →
      get (fireOne st t k).1 k = ((fireOne st t k).1, [], .nullV)) := by
  have hc := consistent_reachable st h
  obtain ⟨hg, he, hfe⟩ := fireOne_spec st t k e hc hd hk hmem
  have hnone : storeGet (fireOne st t k).1.cacheStore k = none := by
    rw [hfe]
    exact storeGet_erase_self _ _
  refine ⟨hg, by rw [hfe], hnone, fun hp hpe => ?_⟩
  have hd2 : (fireOne st t k).1.instanceDisposed = false := by
    rw [(fireOne_flags st t k).2.2.2]
    exact hd
  have hpe2 : (fireOne st t k).1.protoEntry = none := by
    rw [(fireOne_flags st t k).2.1]
    exact hpe
  have hl : propLookup (fireOne st t k).1.cacheStore
      (fireOne st t k).1.protoEntry k = none := by
    rw [hpe2]
    exact propLookup_eq_none _ k hnone hp hk
  simp [get, hd2, hl]

/-- C4 counterexample to the claim as stated: for the key `"constructor"`
(never returning to absence because of the prototype chain), after the
eviction callback fires, `get` does not return the not-found sentinel. -/
theorem claim_C4_eviction_events_counterexample :
    (get (fireOne (put (initSt Nat defaultConfig) "constructor" 7
        (some (.num 5)) 0).1 5 "constructor").1 "constructor").2.2 ≠
      GetRes.nullV := by
  decide

/-- C4 witness: a concrete eviction raising `expired` then `removed`, after
which the key reads as absent. -/
theorem claim_C4_eviction_events_witness :
    (fireOne (put (initSt Nat defaultConfig) "a" 1 (some (.num 50)) 0).1
        50 "a").2 =
      [Ev.expired "a" ⟨1, 0, some 50⟩,
       Ev.removedEv "a" (.entry ⟨1, 0, some 50⟩)] :=
  (claim_C4_eviction_events
    (put (initSt Nat defaultConfig) "a" 1 (some (.num 50)) 0).1
    50 "a" ⟨1, 0, some 50⟩
    (Reachable.step (Reachable.init defaultConfig)
      (Step.putS (initSt Nat defaultConfig) "a" 1 (some (.num 50)) 0))
    (by decide) (by decide) (by decide)).2.1

/-- C5: every operation invoked after `dispose()` fails fast with the
use-after-dispose throw, leaves the state — store, prototype link,
registrations, disposed flags — exactly as it was, and emits no event. -/
theorem claim_C5_use_after_dispose (st : St V)
    (hd : st.instanceDisposed = true) :
    (∀ (k : Key) (v : V) (e? : Option TTLv) (now : Nat),
      put st k v e? now = (st, [], .threw)) ∧
    (∀ k : Key, get st k = (st, [], .threw)) ∧
    (∀ (k : Key) (b : Bool), remove st k b = (st, [], .threw)) ∧
    dispose st = (st, [], .threw) := by
  refine ⟨fun k v e? now => ?_, fun k => ?_, fun k b => ?_, ?_⟩ <;>
    simp [put, get, remove, dispose, hd]

/-- C5 witness: a `put` on a concrete disposed instance throws and changes
nothing. -/
theorem claim_C5_use_after_dispose_witness :
    put (dispose (initSt Nat defaultConfig)).1 "a" 2 none 5 =
      ((dispose (initSt Nat defaultConfig)).1, [], .threw) :=
  (claim_C5_use_after_dispose (dispose (initSt Nat defaultConfig)).1
    (by decide)).1 "a" 2 none 5

/-- C6: `dispose()` on a non-disposed instance removes every key silently
(no `removed` events), raises exactly one `cleared` event, discards the
Expirer's registrations and stops its loop, marks the instance disposed, and
returns `true`; afterwards the store is empty and every subsequent operation
fails with the use-after-dispose throw. -/
theorem claim_C6_dispose (st : St V) (hd : st.instanceDisposed = false) :
    dispose st =
      ({ config := st.config, cacheStore := [], protoEntry := st.protoEntry,
         expirer := [], expirerDisposed := true, instanceDisposed := true },
       [Ev.cleared], .ret true) ∧
    (∀ (k : Key) (v : V) (e? : Option TTLv) (now : Nat),
      put (dispose st).1 k v e? now = ((dispose st).1, [], .threw)) ∧
    (∀ k : Key, get (dispose st).1 k = ((dispose st).1, [], .threw)) ∧
    (∀ (k : Key) (b : Bool),
      remove (dispose st).1 k b = ((dispose st).1, [], .threw)) ∧
    dispose (dispose st).1 = ((dispose st).1, [], .threw) := by
  have hs := dispose_spec st hd
  refine ⟨hs, fun k v e? now => ?_, fun k => ?_, fun k b => ?_, ?_⟩ <;>
    rw [hs] <;> simp [put, get, remove, dispose]

/-- C6 witness: disposing a concrete one-entry cache. -/
theorem claim_C6_dispose_witness :
    dispose (put (initSt Nat defaultConfig) "a" 1 (some (.num 50)) 0).1 =
      ({ config :=
           (put (initSt Nat defaultConfig) "a" 1 (some (.num 50)) 0).1.config,
         cacheStore := [],
         protoEntry :=
           (put (initSt Nat defaultConfig) "a" 1
             (some (.num 50)) 0).1.protoEntry,
         expirer := [], expirerDisposed := true, instanceDisposed := true },
       [Ev.cleared], .ret true) :=
  (claim_C6_dispose
    (put (initSt Nat defaultConfig) "a" 1 (some (.num 50)) 0).1 (by decide)).1

/-- C7 (amended): on a live reachable instance, for a key that does not name
an inherited `Object.prototype` property, is not `"__proto__"`, and while
the store's prototype is not an installed entry, `remove(k, notify)` returns
`true` and deletes the entry — cancelling any pending registration for
`(entry.expiryAt, k)`, a no-op when the entry has no TTL — exactly when the
key has a live entry, and returns `false` leaving everything unchanged when
it does not; a second `remove` right after a successful one returns `false`
with no event, so at most one `removed` notification is raised, and only
when `notify` is set.  (For inherited prototype names `remove` returns
`true` even with no live entry — see the counterexample.) -/
theorem claim_C7_remove_semantics (st : St V) (k : Key) (b : Bool)
    (h : Reachable st) (hd : st.instanceDisposed = false)
    (hp : isProtoKey k = false) (hk : k ≠ protoKey)
    (hpe : st.protoEntry = none) :
    (∀ e : Entry V, storeGet st.cacheStore k = some e →
      remove st k b =
        ({ st with
            cacheStore := storeErase st.cacheStore k
            expirer := expRemove st.expirer e.expiryAt k },
         if b then [Ev.removedEv k (.entry e)] else [], .ret true) ∧
      storeGet (remove st k b).1.cacheStore k = none ∧
      keyRegs (remove st k b).1.expirer k = [] ∧
      (remove (remove st k b).1 k b).2 = ([], .ret false)) ∧
    (storeGet st.cacheStore k = none →
      remove st k b = (st, [], .ret false)) := by
  have hc := consistent_reachable st h
  constructor
  · intro e he
    have heq := remove_found st k b e hd he
    have hnone : storeGet (remove st k b).1.cacheStore k = none := by
      rw [heq]
      exact storeGet_erase_self _ _
    have hcr : Consistent (remove st k b).1 := consistent_remove st k b hc
    have hd2 : (remove st k b).1.instanceDisposed = false := by
      rw [(remove_flags st k b).2.2.2]
      exact hd
    have hpe2 : (remove st k b).1.protoEntry = none := by
      rw [(remove_flags st k b).2.1]
      exact hpe
    have hsecond := remove_absent (remove st k b).1 k b hd2 hnone hp hk hpe2
    exact ⟨heq, hnone, keyRegs_nil_of_absent _ k hcr hk hnone,
      by rw [hsecond]⟩
  · intro he
    exact remove_absent st k b hd he hp hk hpe

/-- C7 counterexample to the claim as stated: on a fresh cache the key
`"constructor"` has no live entry, yet `remove` returns `true`, and removing
it twice in a row returns `true` both times. -/
theorem claim_C7_remove_semantics_counterexample :
    storeGet (initSt Nat defaultConfig).cacheStore "constructor" = none ∧
    (remove (initSt Nat defaultConfig) "constructor" true).2.2 =
      BRes.ret true ∧
    (remove (remove (initSt Nat defaultConfig) "constructor" true).1
        "constructor" true).2.2 = BRes.ret true := by
  decide

/-- C7 witness: removing a concrete live key twice returns `true` then
`false` with no second event. -/
theorem claim_C7_remove_semantics_witness :
    (remove (remove (put (initSt Nat defaultConfig) "a" 1
        (some (.num 50)) 0).1 "a" true).1 "a" true).2 =
      ([], BRes.ret false) :=
  ((claim_C7_remove_semantics
    (put (initSt Nat defaultConfig) "a" 1 (some (.num 50)) 0).1 "a" true
    (Reachable.step (Reachable.init defaultConfig)
      (Step.putS (initSt Nat defaultConfig) "a" 1 (some (.num 50)) 0))
    (by decide) (by decide) (by decide) (by decide)).1
    ⟨1, 0, some 50⟩ (by decide)).2.2.2


/-- C8 (amended): `get` never changes the state — store, prototype link,
every entry's `expiryAt`, and the pending registrations are untouched (no
sliding expiry); on a live instance, for a key that does not name an
inherited `Object.prototype` property, a hit on the store returns the live
entry and raises exactly one `fetched` event with payload `{key, data}`,
and — provided additionally that the key is not `"__proto__"` and the
store's prototype has not been replaced by a `put("__proto__", …)` — a miss
returns the not-found sentinel with no event.  (For inherited names a miss
instead returns the truthy inherited value with a `fetched` event — see the
counterexample.) -/
theorem claim_C8_get_semantics (st : St V) (k : Key) :
    (get st k).1 = st ∧
    (st.instanceDisposed = false → isProtoKey k = false →
      (∀ e : Entry V, storeGet st.cacheStore k = some e →
        get st k = (st, [Ev.fetched k (.entry e)], .found (.entry e))) ∧
      (k ≠ protoKey → st.protoEntry = none →
        storeGet st.cacheStore k = none → get st k = (st, [], .nullV))) := by
  refine ⟨get_state st k, fun hd hp => ⟨fun e he => ?_, fun hk hpe he => ?_⟩⟩
  · simp [get, hd, propLookup_eq_entry _ st.protoEntry _ _ he]
  · have hl : propLookup st.cacheStore st.protoEntry k = none := by
      rw [hpe]
      exact propLookup_eq_none _ k he hp hk
    simp [get, hd, hl]

/-- C8 counterexample to the claim as stated: on a fresh cache the key
`"toString"` is absent, yet `get` does not return the not-found sentinel and
raises a `fetched` event. -/
theorem claim_C8_get_semantics_counterexample :
    storeGet (initSt Nat defaultConfig).cacheStore "toString" = none ∧
    (get (initSt Nat defaultConfig) "toString").2.2 ≠ GetRes.nullV ∧
    (get (initSt Nat defaultConfig) "toString").2.1 ≠ [] := by
  decide

/-- C8 witness: a concrete hit returning the live entry with one `fetched`
event and an unchanged state. -/
theorem claim_C8_get_semantics_witness :
    get (put (initSt Nat defaultConfig) "a" 5 (some (.num 50)) 0).1 "a" =
      ((put (initSt Nat defaultConfig) "a" 5 (some (.num 50)) 0).1,
       [Ev.fetched "a" (.entry ⟨5, 0, some 50⟩)],
       .found (.entry ⟨5, 0, some 50⟩)) :=
  ((claim_C8_get_semantics
    (put (initSt Nat defaultConfig) "a" 5 (some (.num 50)) 0).1 "a").2
    (by decide) (by decide)).1 ⟨5, 0, some 50⟩ (by decide)

/-- C9 (amended): on a live instance `put` returns the entry it created —
holding the value, the insertion time and the computed `expiryAt` — and
emits exactly one `added` event with payload `{key, data}` synchronously
before returning; for every key other than `"__proto__"` that entry is also
installed in the store and readable back.  (For `"__proto__"` the assignment
triggers the inherited prototype setter and no store slot is created; see
the counterexample.) -/
theorem claim_C9_put_returns_entry (st : St V) (k : Key) (v : V)
    (e? : Option TTLv) (now : Nat) (hd : st.instanceDisposed = false) :
    put st k v e? now =
      ((put st k v e? now).1,
       [Ev.added k
         ⟨v, now, computeExpiryAt (e?.getD st.config.defaultCacheExpiryIn) now⟩],
       .ok ⟨v, now,
         computeExpiryAt (e?.getD st.config.defaultCacheExpiryIn) now⟩) ∧
    (k ≠ protoKey →
      storeGet (put st k v e? now).1.cacheStore k =
        some ⟨v, now,
          computeExpiryAt (e?.getD st.config.defaultCacheExpiryIn) now⟩) := by
  refine ⟨?_, fun hk => put_cacheStore_self st k v e? now hd hk⟩
  rw [put_eq st k v e? now hd]

/-- C9 counterexample to the claim as stated: `put("__proto__", 1, 50)` on a
fresh cache returns the created entry, yet no entry for `"__proto__"` is
installed in the store — the assignment triggered the inherited prototype
setter. -/
theorem claim_C9_put_returns_entry_counterexample :
    (put (initSt Nat defaultConfig) "__proto__" 1 (some (.num 50)) 0).2.2 =
      PutRes.ok ⟨1, 0, some 50⟩ ∧
    storeGet (put (initSt Nat defaultConfig) "__proto__" 1
        (some (.num 50)) 0).1.cacheStore "__proto__" = none := by
  decide

/-- C9 witness: a concrete `put` returning its entry with one `added` event
and installing it. -/
theorem claim_C9_put_returns_entry_witness :
    put (initSt Nat defaultConfig) "a" 1 (some (.num 50)) 0 =
      ((put (initSt Nat defaultConfig) "a" 1 (some (.num 50)) 0).1,
       [Ev.added "a" ⟨1, 0, computeExpiryAt
         ((some (TTLv.num 50)).getD
           (initSt Nat defaultConfig).config.defaultCacheExpiryIn) 0⟩],
       .ok ⟨1, 0, computeExpiryAt
         ((some (TTLv.num 50)).getD
           (initSt Nat defaultConfig).config.defaultCacheExpiryIn) 0⟩) ∧
    ("a" ≠ protoKey →
      storeGet (put (initSt Nat defaultConfig) "a" 1
          (some (.num 50)) 0).1.cacheStore "a" =
        some ⟨1, 0, computeExpiryAt
          ((some (TTLv.num 50)).getD
            (initSt Nat defaultConfig).config.defaultCacheExpiryIn) 0⟩) :=
  claim_C9_put_returns_entry (initSt Nat defaultConfig) "a" 1
    (some (.num 50)) 0 (by decide)

/-- C10: presence is decided by a truthy property read on a
prototype-bearing object, so for a key naming an inherited
`Object.prototype` property that was never inserted, `get` does not return
the not-found sentinel: it returns the inherited value and raises a
`fetched` event, and `remove` likewise treats the key as present and
returns `true`. -/
theorem claim_C10_prototype_leak (st : St V) (k : Key)
    (hd : st.instanceDisposed = false)
    (habs : storeGet st.cacheStore k = none) (hp : isProtoKey k = true) :
    get st k = (st, [Ev.fetched k (.protoVal k)], .found (.protoVal k)) ∧
    (get st k).2.2 ≠ GetRes.nullV ∧
    (∀ b, remove st k b =
      (st, if b then [Ev.removedEv k (.protoVal k)] else [], .ret true)) := by
  have hl := propLookup_eq_proto st.cacheStore st.protoEntry k habs hp
  refine ⟨?_, ?_, fun b => remove_proto st k b hd habs hp⟩ <;>
    simp [get, hd, hl]

/-- C10 witness: the inherited name `"constructor"` on a fresh cache. -/
theorem claim_C10_prototype_leak_witness :
    get (initSt Nat defaultConfig) "constructor" =
      (initSt Nat defaultConfig,
       [Ev.fetched "constructor" (.protoVal "constructor")],
       .found (.protoVal "constructor")) ∧
    (get (initSt Nat defaultConfig) "constructor").2.2 ≠ GetRes.nullV ∧
    (∀ b, remove (initSt Nat defaultConfig) "constructor" b =
      (initSt Nat defaultConfig,
       if b then [Ev.removedEv "constructor" (.protoVal "constructor")]
       else [], .ret true)) :=
  claim_C10_prototype_leak (initSt Nat defaultConfig) "constructor"
    (by decide) (by decide) (by decide)

end FlashCache
